import Mathlib

/-!
Verification of the SimpactHealth discrete population-flow engine.

The development embeds the two step engines of the repository:
the inline Simulate-page step loop of `app.py` (per-edge rounding with a
`max 0` clip) and `run_discrete_simulation` of
`simulation/simulation_engine.py` (exact flows, one rounding after
aggregation, no clip), together with the Draw-page probability validation
and `validate_config_data`.

Python floats are modelled as exact rationals; every concrete input used
below is a dyadic rational small enough that the corresponding float
computation in the source is exact, so the model and the program agree at
those inputs.  Python's `round` builtin rounds halves to the nearest even
integer; `pythonRound` below reproduces that rule on rationals.
-/

namespace SimpactHealth

/-- One row of the transitions table: `{source, target, probability}`. -/
structure Transition where
  source : String
  target : String
  probability : ℚ
deriving DecidableEq

/-- Python's `round` builtin on an exact value: nearest integer, ties to
the nearest even integer. -/
def pythonRound (x : ℚ) : ℤ :=
  if x - ⌊x⌋ < 1/2 then ⌊x⌋
  else if 1/2 < x - ⌊x⌋ then ⌊x⌋ + 1
  else if ⌊x⌋ % 2 = 0 then ⌊x⌋ else ⌊x⌋ + 1

/-- Round half up, the rule named by the specification. -/
def roundHalfUp (x : ℚ) : ℤ := ⌊x + 1/2⌋

/-! ### The Simulate-page step loop of `app.py` (lines 664-690)

The population dict is modelled as a total function `String → ℤ` together
with the list `states` of its keys.  An edge contributes `num_moving`
to the flows exactly when the loop guard
`source in current_populations and current_populations[source] > 0`
passes. -/

/-- `num_moving = round(current_populations[source] * probability)`. -/
def num_moving (cur : String → ℤ) (t : Transition) : ℤ :=
  pythonRound ((cur t.source : ℚ) * t.probability)

/-- Accumulated `inflows_per_state[n]` over the transition loop. -/
def inflows_per_state (ts : List Transition) (states : List String)
    (cur : String → ℤ) (n : String) : ℤ :=
  (ts.map (fun t =>
    if t.source ∈ states ∧ 0 < cur t.source ∧ t.target = n
    then num_moving cur t else 0)).sum

/-- Accumulated `outflows_per_state[n]` over the transition loop. -/
def outflows_per_state (ts : List Transition) (states : List String)
    (cur : String → ℤ) (n : String) : ℤ :=
  (ts.map (fun t =>
    if t.source ∈ states ∧ 0 < cur t.source ∧ t.source = n
    then num_moving cur t else 0)).sum

/-- One step of the Simulate-page loop:
`new_populations[node] = max(0, current + inflows - outflows)` for every
tracked node. -/
def stepApp (ts : List Transition) (states : List String)
    (cur : String → ℤ) : String → ℤ :=
  fun n =>
    if n ∈ states then
      max 0 (cur n + inflows_per_state ts states cur n
               - outflows_per_state ts states cur n)
    else cur n

/-- The snapshot after `k` iterations of the Simulate-page step loop. -/
def simulateApp (ts : List Transition) (states : List String)
    (init : String → ℤ) : ℕ → (String → ℤ)
  | 0 => init
  | k + 1 => stepApp ts states (simulateApp ts states init k)

/-- `all_sim_nodes`: every state mentioned as a source or target. -/
def all_sim_nodes (ts : List Transition) : List String :=
  (ts.map (fun t => t.source) ++ ts.map (fun t => t.target)).dedup

/-- Keys of `current_populations` after initialization: the transition
endpoints, with `"Healthy"` added and `"Start"` deleted. -/
def sim_state_keys (ts : List Transition) : List String :=
  (if "Healthy" ∈ all_sim_nodes ts then all_sim_nodes ts
   else all_sim_nodes ts ++ ["Healthy"]).erase "Start"

/-- Lexicographic comparison of code-point lists, Python's string order. -/
def charListLe : List Char → List Char → Bool
  | [], _ => true
  | _ :: _, [] => false
  | a :: as, b :: bs =>
    if a.toNat < b.toNat then true
    else if b.toNat < a.toNat then false
    else charListLe as bs

/-- String comparison used by `sorted(...)` on state names. -/
def strLe (a b : String) : Bool := charListLe a.data b.data

/-- Insertion sort on state names, for the sorted column order. -/
def insertSorted (s : String) : List String → List String
  | [] => [s]
  | x :: xs => if strLe s x then s :: x :: xs else x :: insertSorted s xs

/-- Ascending state list, `sorted(list(current_populations.keys()))`. -/
def sortStates (l : List String) : List String := l.foldr insertSorted []

/-- `sorted_sim_nodes` of the Simulate page. -/
def sorted_sim_nodes (ts : List Transition) : List String :=
  sortStates (sim_state_keys ts)

/-- The initial populations of the Simulate page: the whole cohort in the
literal state `"Healthy"`, zero everywhere else. -/
def init_populations (n : ℤ) : String → ℤ :=
  fun s => if s = "Healthy" then n else 0

/-- The Simulate-page history: one population row per step index
`0, 1, …, sim_steps`, columns in sorted state order. -/
def app_history (ts : List Transition) (n : ℤ) (sim_steps : ℕ) :
    List (List ℤ) :=
  (List.range (sim_steps + 1)).map (fun k =>
    (sorted_sim_nodes ts).map
      (simulateApp ts (sorted_sim_nodes ts) (init_populations n) k))

/-! ### Draw-page probability validation (`app.py` lines 309-334, 501-508)

`probabilities_by_source` is the dict accumulated while generating the
mermaid lines: rows with an empty source or target are skipped, every
other row appends its probability to its source's list.  The dict is
modelled as a total function (absent key ↦ `[]`) plus the key list. -/

/-- The per-source probability lists accumulated by the Draw page. -/
def probabilities_by_source (ts : List Transition) : String → List ℚ :=
  ts.foldl
    (fun acc t =>
      if t.source = "" ∨ t.target = "" then acc
      else fun s =>
        if s = t.source then acc s ++ [t.probability] else acc s)
    (fun _ => [])

/-- The keys of `probabilities_by_source`, in order of first insertion. -/
def warning_sources (ts : List Transition) : List String :=
  ((ts.filter (fun t => ¬(t.source = "" ∨ t.target = ""))).map
    (fun t => t.source)).dedup

/-- The validation warnings: one `(node, current_sum)` pair per source
whose probabilities fail `abs(current_sum - 1.0) > 1e-9`. -/
def validation_warnings (ts : List Transition) : List (String × ℚ) :=
  ((warning_sources ts).filter
    (fun s => |(probabilities_by_source ts s).sum - 1| > 1 / 1000000000)).map
    (fun s => (s, (probabilities_by_source ts s).sum))

/-! ### `validate_config_data` (`app.py` lines 204-247)

The type-level `isinstance` checks of the Python function are absorbed by
the typed record; the value-level checks — the early acceptance of an
empty transition list, the probability range check and the timestep-unit
check — are modelled exactly, in the source's order. -/

/-- A parsed configuration record. -/
structure ConfigData where
  model_name : String
  initial_patients : ℤ
  transitions : List Transition
  timestep_unit : String
deriving DecidableEq

/-- `valid_timestep_units` of `validate_config_data`. -/
def valid_timestep_units : List String := ["Year", "Month", "Week", "Day"]

/-- The value-level checks of `validate_config_data`: an empty transition
list is accepted at once; otherwise every probability must lie in
`[0, 1]` and the timestep unit must be one of the four known units. -/
def validate_config_data (c : ConfigData) : Bool :=
  if c.transitions = [] then true
  else if c.transitions.all
      (fun t => decide (0 ≤ t.probability) && decide (t.probability ≤ 1)) then
    decide (c.timestep_unit ∈ valid_timestep_units)
  else false

/-- Python's `str.isidentifier`, restricted to ASCII: nonempty, first
character a letter or underscore, the rest letters, digits or
underscores. -/
def isIdentifier (s : String) : Bool :=
  match s.data with
  | [] => false
  | c :: rest =>
    (c.isAlpha || c = '_') && rest.all (fun d => d.isAlphanum || d = '_')

/-! ### `run_discrete_simulation` (`simulation/simulation_engine.py`)

The engine accumulates, inside one step, a single float
`outflow_from_state` across **all** sources with positive population
(the loop writes into one scalar), per-target float inflows, and then
sets `next[state] = current[state] - (outflow if state is a source of
any transition else 0) + inflow[state]`, rounding every state once at
the end of the step.  There is no `max(0, ...)` clip. -/

/-- Membership test `state in grouped_transitions`: the state appears as
the source of some transition. -/
def isGroupedSource (ts : List Transition) (n : String) : Bool :=
  ts.any (fun t => t.source = n)

/-- The single accumulated outflow scalar of one engine step: the sum of
`current[source] * probability` over every transition whose source
currently has positive population. -/
def engineOutflowTotal (ts : List Transition) (cur : String → ℤ) : ℚ :=
  ((ts.filter (fun t => 0 < cur t.source)).map
    (fun t => (cur t.source : ℚ) * t.probability)).sum

/-- `inflows_to_state[n]` of one engine step. -/
def engineInflow (ts : List Transition) (cur : String → ℤ) (n : String) : ℚ :=
  ((ts.filter (fun t => 0 < cur t.source ∧ t.target = n)).map
    (fun t => (cur t.source : ℚ) * t.probability)).sum

/-- One step of `run_discrete_simulation`, including the end-of-step
`round` of every state. -/
def engineStep (ts : List Transition) (cur : String → ℤ) : String → ℤ :=
  fun n =>
    pythonRound ((cur n : ℚ)
      - (if isGroupedSource ts n then engineOutflowTotal ts cur else 0)
      + engineInflow ts cur n)

/-- The engine snapshot after `k` steps. -/
def engineRun (ts : List Transition) (cur : String → ℤ) : ℕ → (String → ℤ)
  | 0 => cur
  | k + 1 => engineStep ts (engineRun ts cur k)

/-- `all_states` of the engine: the keys of the initial population map
together with every transition endpoint. -/
def engine_all_states (ts : List Transition)
    (initial_population : List (String × ℤ)) : List String :=
  (initial_population.map (fun p => p.1)
    ++ ts.map (fun t => t.source) ++ ts.map (fun t => t.target)).dedup

/-- The initial snapshot of the engine:
`initial_population.get(state, 0)`. -/
def engineInit (initial_population : List (String × ℤ)) : String → ℤ :=
  fun s => ((initial_population.lookup s).getD 0)

/-- The history table returned by `run_discrete_simulation`: a row
`(step, populations in ascending state order)` for each step index
`0, 1, …, num_steps`. -/
def run_discrete_simulation (ts : List Transition)
    (initial_population : List (String × ℤ)) (num_steps : ℕ) :
    List (ℕ × List ℤ) :=
  (List.range (num_steps + 1)).map (fun k =>
    (k, (sortStates (engine_all_states ts initial_population)).map
          (engineRun ts (engineInit initial_population) k)))

/-- Total population of a snapshot over a state list. -/
def totalPop (states : List String) (cur : String → ℤ) : ℤ :=
  (states.map cur).sum

/-! ### Shared helper lemmas -/

theorem lsum_map_zero {α M : Type*} [AddCommMonoid M] (l : List α) :
    (l.map (fun _ => (0 : M))).sum = 0 := by
  induction l with
  | nil => rfl
  | cons a l ih => simp [ih]

theorem lsum_map_add {α M : Type*} [AddCommMonoid M] (l : List α)
    (f g : α → M) :
    (l.map (fun x => f x + g x)).sum = (l.map f).sum + (l.map g).sum := by
  induction l with
  | nil => simp
  | cons a l ih =>
    simp only [List.map_cons, List.sum_cons, ih]
    rw [add_add_add_comm]

theorem lsum_map_sub {α M : Type*} [AddCommGroup M] (l : List α)
    (f g : α → M) :
    (l.map (fun x => f x - g x)).sum = (l.map f).sum - (l.map g).sum := by
  induction l with
  | nil => simp
  | cons a l ih =>
    simp only [List.map_cons, List.sum_cons, ih]
    abel

theorem lsum_if_mem {M : Type*} [AddCommMonoid M] (l : List String)
    (hnd : l.Nodup) (a : String) (c : M) :
    (l.map (fun n => if a = n then c else 0)).sum
      = if a ∈ l then c else 0 := by
  induction l with
  | nil => simp
  | cons x xs ih =>
    rcases List.nodup_cons.mp hnd with ⟨hx, hxs⟩
    by_cases hax : a = x
    · subst hax
      have : a ∉ xs := hx
      simp [ih hxs, this]
    · simp [hax, ih hxs, Ne.symm hax]

theorem lsum_comm {α β M : Type*} [AddCommMonoid M] (l1 : List α)
    (l2 : List β) (F : α → β → M) :
    (l1.map (fun a => (l2.map (fun b => F a b)).sum)).sum
      = (l2.map (fun b => (l1.map (fun a => F a b)).sum)).sum := by
  induction l1 with
  | nil => simp [lsum_map_zero]
  | cons a l1 ih =>
    simp only [List.map_cons, List.sum_cons, ih, lsum_map_add]

theorem lsum_map_filter {α M : Type*} [AddCommMonoid M] (l : List α)
    (p : α → Bool) (f : α → M) :
    (l.map (fun x => if p x then f x else 0)).sum
      = ((l.filter p).map f).sum := by
  induction l with
  | nil => simp
  | cons a l ih =>
    by_cases h : p a
    · simp [List.filter_cons, h, ih]
    · simp [List.filter_cons, h, ih]

theorem lsum_if_const {α : Type*} (l : List α) (p : α → Bool) (c : ℚ) :
    (l.map (fun x => if p x then c else 0)).sum
      = ((l.filter p).length : ℚ) * c := by
  induction l with
  | nil => simp
  | cons a l ih =>
    by_cases h : p a
    · simp only [h, List.filter_cons, if_true, List.map_cons, List.sum_cons,
        List.length_cons, ih]
      push_cast
      ring
    · simp [List.filter_cons, h, ih]

theorem lsum_cast {α : Type*} (l : List α) (f : α → ℤ) :
    (((l.map f).sum : ℤ) : ℚ) = (l.map (fun x => ((f x : ℤ) : ℚ))).sum := by
  induction l with
  | nil => simp
  | cons a l ih => simp [ih]

theorem pythonRound_nonneg (x : ℚ) (hx : 0 ≤ x) : 0 ≤ pythonRound x := by
  have hf : (0 : ℤ) ≤ ⌊x⌋ := Int.floor_nonneg.mpr hx
  unfold pythonRound
  split_ifs <;> omega

theorem pythonRound_le (x : ℚ) : (pythonRound x : ℚ) ≤ x + 1/2 := by
  have h1 : (⌊x⌋ : ℚ) ≤ x := Int.floor_le x
  unfold pythonRound
  split_ifs with ha hb hc <;> push_cast <;> linarith

theorem le_pythonRound (x : ℚ) : x - 1/2 ≤ (pythonRound x : ℚ) := by
  have h2 : x < ⌊x⌋ + 1 := Int.lt_floor_add_one x
  unfold pythonRound
  split_ifs with ha hb hc <;> push_cast <;> linarith

/-! ### Facts about the Simulate-page step -/

theorem outflows_filter_eq (ts : List Transition) (states : List String)
    (cur : String → ℤ) (n : String) (hmem : n ∈ states)
    (hpos : 0 < cur n) :
    outflows_per_state ts states cur n
      = ((ts.filter (fun t => t.source = n)).map
          (fun t => pythonRound ((cur n : ℚ) * t.probability))).sum := by
  unfold outflows_per_state
  rw [← lsum_map_filter ts (fun t => t.source = n)
        (fun t => pythonRound ((cur n : ℚ) * t.probability))]
  apply congrArg
  apply List.map_congr_left
  intro t _
  by_cases hsn : t.source = n
  · rw [if_pos, if_pos (by simp [hsn])]
    · simp [num_moving, hsn]
    · exact ⟨hsn ▸ hmem, hsn ▸ hpos, hsn⟩
  · rw [if_neg, if_neg (by simpa using hsn)]
    exact fun hc => hsn hc.2.2

theorem inflows_nonneg (ts : List Transition) (states : List String)
    (cur : String → ℤ) (n : String)
    (hp : ∀ t ∈ ts, 0 ≤ t.probability) :
    0 ≤ inflows_per_state ts states cur n := by
  unfold inflows_per_state
  apply List.sum_nonneg
  intro x hx
  rcases List.mem_map.mp hx with ⟨t, ht, rfl⟩
  by_cases hc : t.source ∈ states ∧ 0 < cur t.source ∧ t.target = n
  · rw [if_pos hc]
    exact pythonRound_nonneg _
      (mul_nonneg (by exact_mod_cast hc.2.1.le) (hp t ht))
  · rw [if_neg hc]

theorem outflows_zero_of_not_pos (ts : List Transition)
    (states : List String) (cur : String → ℤ) (n : String)
    (hpos : ¬ 0 < cur n) :
    outflows_per_state ts states cur n = 0 := by
  unfold outflows_per_state
  rw [show (ts.map (fun t =>
      if t.source ∈ states ∧ 0 < cur t.source ∧ t.source = n
      then num_moving cur t else 0)) = ts.map (fun _ => (0 : ℤ)) from
    List.map_congr_left (fun t _ => by
      rw [if_neg]
      exact fun hc => hpos (hc.2.2 ▸ hc.2.1))]
  exact lsum_map_zero ts

theorem outflows_zero_of_no_source (ts : List Transition)
    (states : List String) (cur : String → ℤ) (n : String)
    (hns : ∀ t ∈ ts, t.source ≠ n) :
    outflows_per_state ts states cur n = 0 := by
  unfold outflows_per_state
  rw [show (ts.map (fun t =>
      if t.source ∈ states ∧ 0 < cur t.source ∧ t.source = n
      then num_moving cur t else 0)) = ts.map (fun _ => (0 : ℤ)) from
    List.map_congr_left (fun t ht => by
      rw [if_neg]
      exact fun hc => hns t ht hc.2.2)]
  exact lsum_map_zero ts

theorem stepApp_nonneg_pointwise (ts : List Transition)
    (states : List String) (cur : String → ℤ) (n : String)
    (hc : 0 ≤ cur n) : 0 ≤ stepApp ts states cur n := by
  unfold stepApp
  by_cases hmem : n ∈ states
  · rw [if_pos hmem]; exact le_max_left 0 _
  · rwa [if_neg hmem]

theorem simulateApp_nonneg (ts : List Transition) (states : List String)
    (init : String → ℤ) (hinit : ∀ n, 0 ≤ init n) :
    ∀ k n, 0 ≤ simulateApp ts states init k n := by
  intro k
  induction k with
  | zero => exact hinit
  | succ k ih =>
    intro n
    exact stepApp_nonneg_pointwise ts states _ n (ih n)

/-! ### Claim C1 -/

/-- Transitions `A → B` and `A → C`, each with probability `1/2`. -/
def c1ts : List Transition := [⟨"A", "B", 1/2⟩, ⟨"A", "C", 1/2⟩]

/-- Snapshot holding `A = 7` and `0` elsewhere. -/
def c1cur : String → ℤ := fun s => if s = "A" then 7 else 0

/-- C1, counterexample: at a source population of `5` and probability
`1/2` the Simulate-page step moves `round(5 * 0.5) = 2` individuals
(Python's round ties to even), while round-half-up of `2.5` is `3` —
so the per-edge moved count is not the round-half-up of
`current[s] * p`. -/
theorem c1_counterexample :
    num_moving (fun s => if s = "Healthy" then 5 else 0)
      ⟨"Healthy", "Dead", 1/2⟩ = 2 ∧
    roundHalfUp ((5 : ℚ) * (1/2)) = 3 ∧
    (2 : ℤ) ≠ 3 := by
  refine ⟨?_, ?_, by decide⟩
  · norm_num [num_moving, pythonRound, Rat.floor_def]
  · norm_num [roundHalfUp, Rat.floor_def]

/-- C1, amended: in one Simulate-page step the total outflow of a
source with positive population is the sum, over its outgoing edges, of
the per-edge counts `round(current[s] * p)` — rounding applied per edge
before aggregation, with Python's round-half-to-even rule rather than
round-half-up. -/
theorem c1_per_edge_python_round (ts : List Transition)
    (states : List String) (cur : String → ℤ) (n : String)
    (hmem : n ∈ states) (hpos : 0 < cur n) :
    outflows_per_state ts states cur n
      = ((ts.filter (fun t => t.source = n)).map
          (fun t => pythonRound ((cur n : ℚ) * t.probability))).sum :=
  outflows_filter_eq ts states cur n hmem hpos

/-- Witness for C1's amended theorem at the two-edge example. -/
theorem c1_witness :
    "A" ∈ ["A", "B", "C"] ∧ (0 : ℤ) < c1cur "A" ∧
    outflows_per_state c1ts ["A", "B", "C"] c1cur "A"
      = ((c1ts.filter (fun t => t.source = "A")).map
          (fun t => pythonRound ((c1cur "A" : ℚ) * t.probability))).sum :=
  ⟨by decide, by decide,
    c1_per_edge_python_round c1ts ["A", "B", "C"] c1cur "A"
      (by decide) (by decide)⟩

/-! ### Claim C8 -/

/-- Transitions `A → B` and `A → C`, each with probability `1/2`. -/
def c8ts : List Transition := [⟨"A", "B", 1/2⟩, ⟨"A", "C", 1/2⟩]

/-- Snapshot holding `A = 7` and `0` elsewhere. -/
def c8cur : String → ℤ := fun s => if s = "A" then 7 else 0

/-- C8: from `A = 7` with two `1/2` edges, each edge moves
`round(3.5) = 4`, the requested outflow `8` exceeds `7`, `A` clips to
`max(0, 7 - 8) = 0`, `B = C = 4`, and total population grows from `7`
to `8`. -/
theorem c8_example_c :
    num_moving c8cur ⟨"A", "B", 1/2⟩ = 4 ∧
    num_moving c8cur ⟨"A", "C", 1/2⟩ = 4 ∧
    outflows_per_state c8ts ["A", "B", "C"] c8cur "A" = 8 ∧
    stepApp c8ts ["A", "B", "C"] c8cur "A" = 0 ∧
    stepApp c8ts ["A", "B", "C"] c8cur "B" = 4 ∧
    stepApp c8ts ["A", "B", "C"] c8cur "C" = 4 ∧
    totalPop ["A", "B", "C"] c8cur = 7 ∧
    totalPop ["A", "B", "C"] (stepApp c8ts ["A", "B", "C"] c8cur) = 8 := by
  refine ⟨?_, ?_, ?_, ?_, ?_, ?_, by decide, ?_⟩ <;>
    (norm_num [totalPop, stepApp, c8ts, c8cur, inflows_per_state,
      outflows_per_state, num_moving, pythonRound, Rat.floor_def]; try decide)

/-! ### Claim C4 -/

/-- The single transition `Healthy → Dead` with probability `1/2`. -/
def c4ts : List Transition := [⟨"Healthy", "Dead", 1/2⟩]

/-- The initial population map `{Healthy: 5, Dead: 0}`. -/
def c4init : List (String × ℤ) := [("Healthy", 5), ("Dead", 0)]

/-- C4: the two step engines disagree on the same data.  From
`Healthy = 5` with one `1/2` edge, the Simulate-page loop moves
`round(2.5) = 2` and leaves `Healthy = 3`, while
`run_discrete_simulation` subtracts the exact outflow `2.5` and rounds
the result, leaving `Healthy = round(2.5) = 2`. -/
theorem c4_engines_diverge :
    simulateApp c4ts (sorted_sim_nodes c4ts) (init_populations 5) 1
      "Healthy" = 3 ∧
    engineRun c4ts (engineInit c4init) 1 "Healthy" = 2 ∧
    (3 : ℤ) ≠ 2 := by
  have hs : sorted_sim_nodes c4ts = ["Dead", "Healthy"] := by decide
  have hH : engineInit c4init "Healthy" = 5 := by decide
  refine ⟨?_, ?_, by decide⟩
  · rw [show (1 : ℕ) = 0 + 1 from rfl]
    rw [simulateApp, simulateApp, hs]
    norm_num [stepApp, c4ts, init_populations, inflows_per_state,
      outflows_per_state, num_moving, pythonRound, Rat.floor_def]
    decide
  · rw [show (1 : ℕ) = 0 + 1 from rfl]
    rw [engineRun, engineRun]
    have hDH : ¬ (("Dead" : String) = "Healthy") := by decide
    norm_num [engineStep, c4ts, isGroupedSource, engineOutflowTotal,
      engineInflow, List.filter_cons, List.filter_nil, hH, hDH,
      pythonRound, Rat.floor_def]

/-! ### Claim C10 -/

/-- C10: the Simulate page places the whole cohort in the literal state
`"Healthy"` and `0` in every other state, whatever the transitions are,
and tracks exactly the transition endpoints plus `"Healthy"` with
`"Start"` removed. -/
theorem c10_healthy_initialization (ts : List Transition) (N : ℤ) :
    init_populations N "Healthy" = N ∧
    (∀ s, s ≠ "Healthy" → init_populations N s = 0) ∧
    (∀ s, s ∈ sim_state_keys ts ↔
      ((∃ t ∈ ts, t.source = s ∨ t.target = s) ∨ s = "Healthy") ∧
        s ≠ "Start") := by
  refine ⟨by simp [init_populations],
    fun s hs => by simp [init_populations, hs], fun s => ?_⟩
  have hnodes : ∀ s : String, s ∈ all_sim_nodes ts ↔
      (∃ t ∈ ts, t.source = s ∨ t.target = s) := by
    intro s
    simp only [all_sim_nodes, List.mem_dedup, List.mem_append,
      List.mem_map]
    constructor
    · rintro (⟨t, ht, rfl⟩ | ⟨t, ht, rfl⟩)
      · exact ⟨t, ht, Or.inl rfl⟩
      · exact ⟨t, ht, Or.inr rfl⟩
    · rintro ⟨t, ht, (rfl | rfl)⟩
      · exact Or.inl ⟨t, ht, rfl⟩
      · exact Or.inr ⟨t, ht, rfl⟩
  have hndn : (all_sim_nodes ts).Nodup := by
    unfold all_sim_nodes
    exact List.nodup_dedup _
  have hnd : (if "Healthy" ∈ all_sim_nodes ts then all_sim_nodes ts
      else all_sim_nodes ts ++ ["Healthy"]).Nodup := by
    by_cases hh : "Healthy" ∈ all_sim_nodes ts
    · rw [if_pos hh]; exact hndn
    · rw [if_neg hh]
      refine List.nodup_append.mpr
        ⟨hndn, List.nodup_singleton _, ?_⟩
      intro a ha hb
      rw [List.mem_singleton] at hb
      exact hh (hb ▸ ha)
  have hL : ∀ s : String,
      s ∈ (if "Healthy" ∈ all_sim_nodes ts then all_sim_nodes ts
        else all_sim_nodes ts ++ ["Healthy"])
      ↔ s ∈ all_sim_nodes ts ∨ s = "Healthy" := by
    intro s
    by_cases hh : "Healthy" ∈ all_sim_nodes ts
    · rw [if_pos hh]
      constructor
      · exact Or.inl
      · rintro (h | rfl)
        · exact h
        · exact hh
    · rw [if_neg hh]
      simp [List.mem_append]
  unfold sim_state_keys
  rw [hnd.mem_erase_iff, hL, hnodes]
  exact and_comm

/-! ### Claim C9 -/

/-- C9: a zero-step run of `run_discrete_simulation` yields exactly one
history row, with step index `0` and the initial distribution over the
full sorted state set; states missing from the initial population map
count `0`. -/
theorem c9_zero_step_history (ts : List Transition)
    (init : List (String × ℤ)) :
    run_discrete_simulation ts init 0
      = [(0, (sortStates (engine_all_states ts init)).map
              (engineInit init))] ∧
    (run_discrete_simulation ts init 0).length = 1 ∧
    (∀ s, s ∉ init.map (fun p => p.1) → engineInit init s = 0) := by
  refine ⟨?_, ?_, ?_⟩
  · show (List.range 1).map _ = _
    rw [show List.range 1 = [0] from rfl]
    rfl
  · show ((List.range 1).map _).length = 1
    rw [show List.range 1 = [0] from rfl]
    rfl
  · intro s hs
    have hnone : init.lookup s = none := by
      induction init with
      | nil => rfl
      | cons p l ih =>
        simp only [List.map_cons, List.mem_cons, not_or] at hs
        have hb : (s == p.1) = false := beq_eq_false_iff_ne.mpr hs.1
        simp [List.lookup, hb, ih hs.2]
    simp [engineInit, hnone]

/-! ### Claim C2 -/

/-- The single transition `Healthy → Dead` with probability `1`. -/
def c2ts : List Transition := [⟨"Healthy", "Dead", 1⟩]

/-- C2: starting from a nonnegative cohort, every entry of every row of
the Simulate-page history is nonnegative, and each step is computed as
`max(0, current + inflow - outflow)` on every tracked state. -/
theorem c2_history_nonneg (ts : List Transition) (N : ℤ) (k : ℕ)
    (hN : 0 ≤ N) :
    (∀ row ∈ app_history ts N k, ∀ v ∈ row, 0 ≤ v) ∧
    (∀ (cur : String → ℤ) (n : String), n ∈ sorted_sim_nodes ts →
      stepApp ts (sorted_sim_nodes ts) cur n
        = max 0 (cur n
            + inflows_per_state ts (sorted_sim_nodes ts) cur n
            - outflows_per_state ts (sorted_sim_nodes ts) cur n)) := by
  constructor
  · intro row hrow v hv
    rcases List.mem_map.mp hrow with ⟨j, _, rfl⟩
    rcases List.mem_map.mp hv with ⟨n, _, rfl⟩
    refine simulateApp_nonneg ts _ _ (fun m => ?_) j n
    unfold init_populations
    split_ifs
    · exact hN
    · exact le_refl 0
  · intro cur n hn
    simp [stepApp, hn]

/-- Witness for C2 at one concrete run of three steps. -/
theorem c2_witness :
    (0 : ℤ) ≤ 1000 ∧
    ((∀ row ∈ app_history c2ts 1000 3, ∀ v ∈ row, 0 ≤ v) ∧
     (∀ (cur : String → ℤ) (n : String), n ∈ sorted_sim_nodes c2ts →
       stepApp c2ts (sorted_sim_nodes c2ts) cur n
         = max 0 (cur n
             + inflows_per_state c2ts (sorted_sim_nodes c2ts) cur n
             - outflows_per_state c2ts (sorted_sim_nodes c2ts) cur n))) :=
  ⟨by decide, c2_history_nonneg c2ts 1000 3 (by decide)⟩

/-! ### Claim C7 -/

/-- The single transition `A → B` with probability `1/2`. -/
def c7ts : List Transition := [⟨"A", "B", 1/2⟩]

/-- C7: a state that is never the source of a transition is absorbing —
under nonnegative probabilities its population never decreases from one
Simulate-page step to the next. -/
theorem c7_absorbing_nondecreasing (ts : List Transition)
    (states : List String) (init : String → ℤ) (n : String) (k : ℕ)
    (hp : ∀ t ∈ ts, 0 ≤ t.probability)
    (hns : ∀ t ∈ ts, t.source ≠ n) :
    simulateApp ts states init k n ≤ simulateApp ts states init (k + 1) n := by
  have hstep : simulateApp ts states init (k + 1)
      = stepApp ts states (simulateApp ts states init k) := rfl
  rw [hstep]
  set cur := simulateApp ts states init k with hcur
  unfold stepApp
  by_cases hmem : n ∈ states
  · rw [if_pos hmem, outflows_zero_of_no_source ts states cur n hns]
    have hin := inflows_nonneg ts states cur n hp
    have : cur n ≤ cur n + inflows_per_state ts states cur n - 0 := by
      omega
    exact le_trans this (le_max_right 0 _)
  · rw [if_neg hmem]

/-- Witness for C7: `B` has no outgoing edge and `B`'s population does
not decrease over the first step. -/
theorem c7_witness :
    (∀ t ∈ c7ts, 0 ≤ t.probability) ∧ (∀ t ∈ c7ts, t.source ≠ "B") ∧
    simulateApp c7ts ["A", "B"] (fun s => if s = "A" then 7 else 0) 0 "B"
      ≤ simulateApp c7ts ["A", "B"] (fun s => if s = "A" then 7 else 0) 1
          "B" :=
  ⟨by norm_num [c7ts], by decide,
    c7_absorbing_nondecreasing c7ts ["A", "B"]
      (fun s => if s = "A" then 7 else 0) "B" 0
      (by norm_num [c7ts]) (by decide)⟩

/-! ### Claim C5 -/

theorem probabilities_by_source_foldl (ts : List Transition)
    (acc : String → List ℚ) (s : String) :
    (ts.foldl
      (fun acc t =>
        if t.source = "" ∨ t.target = "" then acc
        else fun n =>
          if n = t.source then acc n ++ [t.probability] else acc n) acc) s
    = acc s ++ ((ts.filter
        (fun t => ¬(t.source = "" ∨ t.target = "") ∧ t.source = s)).map
          (fun t => t.probability)) := by
  induction ts generalizing acc with
  | nil => simp
  | cons t ts ih =>
    simp only [List.foldl_cons, List.filter_cons]
    by_cases hskip : t.source = "" ∨ t.target = ""
    · rw [if_pos hskip,
        show (decide (¬(t.source = "" ∨ t.target = "") ∧ t.source = s))
          = false by simp [hskip]]
      simp only [Bool.false_eq_true, if_false]
      exact ih acc
    · rw [if_neg hskip]
      by_cases hts : t.source = s
      · rw [decide_eq_true (p := ¬(t.source = "" ∨ t.target = "")
            ∧ t.source = s) ⟨hskip, hts⟩]
        simp only [if_true, List.map_cons]
        rw [ih]
        rw [if_pos hts.symm, List.append_assoc]
        rfl
      · rw [decide_eq_false (p := ¬(t.source = "" ∨ t.target = "")
            ∧ t.source = s) (fun hc => hts hc.2)]
        simp only [Bool.false_eq_true, if_false]
        rw [ih]
        rw [if_neg (fun h => hts h.symm)]

/-- C5, amended: the Draw-page validation accumulates, per source, the
probabilities of the rows with a nonempty source and target, and emits a
warning naming a source (paired with its observed sum) exactly when that
sum differs from `1.0` by more than `1e-9` — not `1e-6` as the claim
states.  Warnings are data only; nothing in them stops a run. -/
theorem c5_warning_condition (ts : List Transition) (s : String) :
    probabilities_by_source ts s
      = ((ts.filter
          (fun t => ¬(t.source = "" ∨ t.target = "") ∧ t.source = s)).map
            (fun t => t.probability)) ∧
    ((∃ σ, (s, σ) ∈ validation_warnings ts) ↔
      s ∈ warning_sources ts ∧
        |(probabilities_by_source ts s).sum - 1| > 1 / 1000000000) ∧
    (∀ σ, (s, σ) ∈ validation_warnings ts →
      σ = (probabilities_by_source ts s).sum) := by
  refine ⟨?_, ?_, ?_⟩
  · have h := probabilities_by_source_foldl ts (fun _ => []) s
    simpa [probabilities_by_source] using h
  · constructor
    · rintro ⟨σ, hσ⟩
      rcases List.mem_map.mp hσ with ⟨s', hs', heq⟩
      rcases List.mem_filter.mp hs' with ⟨hmem, hcond⟩
      have hss : s' = s := congrArg Prod.fst heq
      subst hss
      exact ⟨hmem, by simpa using hcond⟩
    · rintro ⟨hmem, hgt⟩
      refine ⟨(probabilities_by_source ts s).sum, List.mem_map.mpr
        ⟨s, List.mem_filter.mpr ⟨hmem, by simpa using hgt⟩, rfl⟩⟩
  · intro σ hσ
    rcases List.mem_map.mp hσ with ⟨s', hs', heq⟩
    have hss : s' = s := congrArg Prod.fst heq
    subst hss
    exact (congrArg Prod.snd heq).symm

/-- Transitions whose source `A` has probability sum `1 + 2⁻²⁵`:
within `1e-6` of `1`, but further than `1e-9` from it. -/
def c5ts : List Transition :=
  [⟨"A", "B", 1/2⟩, ⟨"A", "C", 1/2 + 1/33554432⟩]

/-- C5, counterexample: with a probability sum of `1 + 2⁻²⁵` the code
emits a warning for `A` although the deviation is well below the
claimed `1e-6` tolerance — the implemented tolerance is `1e-9`. -/
theorem c5_counterexample :
    validation_warnings c5ts = [("A", 1 + 1/33554432)] ∧
    |((1 : ℚ) + 1/33554432) - 1| ≤ 1/1000000 := by
  constructor
  · have e1 : (¬("A" : String) = "" ∧ ¬("B" : String) = "") := by decide
    have e2 : (¬("A" : String) = "" ∧ ¬("C" : String) = "") := by decide
    have hA : probabilities_by_source c5ts "A" = [1/2, 1/2 + 1/33554432] := by
      have h := probabilities_by_source_foldl c5ts (fun _ => []) "A"
      simp only [probabilities_by_source]
      rw [h]
      norm_num [c5ts, List.filter_cons, e1, e2]
    have hws : warning_sources c5ts = ["A"] := by decide
    unfold validation_warnings
    rw [hws]
    simp only [List.filter_cons, List.filter_nil]
    rw [hA]
    norm_num
    rw [if_pos (show (1 : ℚ)/1000000000 < |1/33554432| by
      rw [abs_of_nonneg (by norm_num)]
      norm_num)]
    simp only [List.map_cons, List.map_nil]
    rw [hA]
    norm_num
  · rw [show ((1 : ℚ) + 1/33554432) - 1 = 1/33554432 by ring,
      abs_of_nonneg (by norm_num)]
    norm_num

/-! ### Claim C6 -/

/-- A configuration whose only transition has the empty string — not an
identifier — as its source, and is otherwise unremarkable. -/
def c6cfg : ConfigData := ⟨"My Model", 1000, [⟨"", "B", 1/2⟩], "Week"⟩

/-- C6, counterexample: `validate_config_data` accepts a configuration
whose state name `""` is not an identifier, so non-identifier state
names are not rejected. -/
theorem c6_counterexample :
    validate_config_data c6cfg = true ∧ isIdentifier "" = false := by
  constructor
  · have h1 : (decide ((0 : ℚ) ≤ 1/2)) = true := decide_eq_true (by norm_num)
    have h2 : (decide ((1/2 : ℚ) ≤ 1)) = true := decide_eq_true (by norm_num)
    simp only [validate_config_data, c6cfg]
    rw [if_neg (by simp)]
    simp only [List.all_cons, List.all_nil, h1, h2]
    decide
  · decide

/-- C6, amended: for a nonempty transition list,
`validate_config_data` does reject a probability outside `[0, 1]` or a
timestep unit outside `{Year, Month, Week, Day}`; state names are never
checked beyond being strings. -/
theorem c6_value_checks (c : ConfigData)
    (hne : c.transitions ≠ [])
    (hbad : (∃ t ∈ c.transitions, ¬(0 ≤ t.probability ∧ t.probability ≤ 1))
        ∨ c.timestep_unit ∉ valid_timestep_units) :
    validate_config_data c = false := by
  unfold validate_config_data
  rw [if_neg hne]
  rcases hbad with ⟨t, ht, hv⟩ | hu
  · rw [if_neg]
    intro hall
    rw [List.all_eq_true] at hall
    have h := hall t ht
    rw [Bool.and_eq_true, decide_eq_true_eq, decide_eq_true_eq] at h
    exact hv h
  · by_cases hall : c.transitions.all
        (fun t => decide (0 ≤ t.probability) && decide (t.probability ≤ 1))
          = true
    · rw [if_pos hall]
      exact decide_eq_false hu
    · rw [if_neg hall]

/-- A configuration whose only transition has probability `2`. -/
def c6wcfg : ConfigData := ⟨"m", 5, [⟨"A", "B", 2⟩], "Week"⟩

/-- Witness for C6's amended theorem: probability `2` is rejected. -/
theorem c6_witness :
    c6wcfg.transitions ≠ [] ∧
    ((∃ t ∈ c6wcfg.transitions,
        ¬(0 ≤ t.probability ∧ t.probability ≤ 1))
      ∨ c6wcfg.timestep_unit ∉ valid_timestep_units) ∧
    validate_config_data c6wcfg = false :=
  ⟨by simp [c6wcfg],
   Or.inl ⟨⟨"A", "B", 2⟩, by simp [c6wcfg], by norm_num⟩,
   c6_value_checks c6wcfg (by simp [c6wcfg])
     (Or.inl ⟨⟨"A", "B", 2⟩, by simp [c6wcfg], by norm_num⟩)⟩

/-! ### Claim C3: supporting lemmas -/

theorem lsum_map_const {α : Type*} (l : List α) (c : ℚ) :
    (l.map (fun _ => c)).sum = (l.length : ℚ) * c := by
  induction l with
  | nil => simp
  | cons a l ih =>
    simp only [List.map_cons, List.sum_cons, List.length_cons, ih]
    push_cast
    ring

theorem inflows_total (ts : List Transition) (states : List String)
    (cur : String → ℤ) (hnd : states.Nodup)
    (htgt : ∀ t ∈ ts, t.target ∈ states) :
    (states.map (fun n => inflows_per_state ts states cur n)).sum
      = (ts.map (fun t =>
          if t.source ∈ states ∧ 0 < cur t.source
          then num_moving cur t else 0)).sum := by
  unfold inflows_per_state
  rw [lsum_comm]
  apply congrArg
  apply List.map_congr_left
  intro t ht
  by_cases hAB : t.source ∈ states ∧ 0 < cur t.source
  · rw [if_pos hAB]
    have h1 : (states.map (fun n =>
        if t.source ∈ states ∧ 0 < cur t.source ∧ t.target = n
        then num_moving cur t else 0)).sum
        = (states.map (fun n =>
            if t.target = n then num_moving cur t else 0)).sum := by
      apply congrArg
      apply List.map_congr_left
      intro n _
      by_cases hpn : t.target = n
      · rw [if_pos ⟨hAB.1, hAB.2, hpn⟩, if_pos hpn]
      · rw [if_neg (fun hc => hpn hc.2.2), if_neg hpn]
    rw [h1, lsum_if_mem states hnd (t.target) (num_moving cur t),
      if_pos (htgt t ht)]
  · rw [if_neg hAB]
    have h1 : (states.map (fun n =>
        if t.source ∈ states ∧ 0 < cur t.source ∧ t.target = n
        then num_moving cur t else 0))
        = states.map (fun _ => (0 : ℤ)) :=
      List.map_congr_left (fun n _ =>
        if_neg (fun hc => hAB ⟨hc.1, hc.2.1⟩))
    rw [h1, lsum_map_zero]

theorem outflows_total (ts : List Transition) (states : List String)
    (cur : String → ℤ) (hnd : states.Nodup)
    (hsrc : ∀ t ∈ ts, t.source ∈ states) :
    (states.map (fun n => outflows_per_state ts states cur n)).sum
      = (ts.map (fun t =>
          if t.source ∈ states ∧ 0 < cur t.source
          then num_moving cur t else 0)).sum := by
  unfold outflows_per_state
  rw [lsum_comm]
  apply congrArg
  apply List.map_congr_left
  intro t ht
  by_cases hAB : t.source ∈ states ∧ 0 < cur t.source
  · rw [if_pos hAB]
    have h1 : (states.map (fun n =>
        if t.source ∈ states ∧ 0 < cur t.source ∧ t.source = n
        then num_moving cur t else 0)).sum
        = (states.map (fun n =>
            if t.source = n then num_moving cur t else 0)).sum := by
      apply congrArg
      apply List.map_congr_left
      intro n _
      by_cases hpn : t.source = n
      · rw [if_pos ⟨hAB.1, hAB.2, hpn⟩, if_pos hpn]
      · rw [if_neg (fun hc => hpn hc.2.2), if_neg hpn]
    rw [h1, lsum_if_mem states hnd (t.source) (num_moving cur t),
      if_pos (hsrc t ht)]
  · rw [if_neg hAB]
    have h1 : (states.map (fun n =>
        if t.source ∈ states ∧ 0 < cur t.source ∧ t.source = n
        then num_moving cur t else 0))
        = states.map (fun _ => (0 : ℤ)) :=
      List.map_congr_left (fun n _ =>
        if_neg (fun hc => hAB ⟨hc.1, hc.2.1⟩))
    rw [h1, lsum_map_zero]

theorem clip_excess_bound (ts : List Transition) (states : List String)
    (cur : String → ℤ) (n : String) (hn : n ∈ states)
    (hp : ∀ t ∈ ts, 0 ≤ t.probability)
    (hcn : 0 ≤ cur n)
    (hsum : ∀ t ∈ ts, ((ts.filter (fun u => u.source = t.source)).map
      (fun u => u.probability)).sum = 1) :
    ((max 0 (cur n + inflows_per_state ts states cur n
        - outflows_per_state ts states cur n)
      - (cur n + inflows_per_state ts states cur n
        - outflows_per_state ts states cur n) : ℤ) : ℚ)
      ≤ if 0 < cur n
        then ((ts.filter (fun t => t.source = n)).length : ℚ) * (1/2)
        else 0 := by
  have hin : 0 ≤ inflows_per_state ts states cur n :=
    inflows_nonneg ts states cur n hp
  by_cases hpos : 0 < cur n
  · rw [if_pos hpos]
    have hblen : (0 : ℚ)
        ≤ ((ts.filter (fun t => t.source = n)).length : ℚ) * (1/2) := by
      have := Nat.cast_nonneg (α := ℚ)
        (ts.filter (fun t => t.source = n)).length
      linarith
    by_cases hE : ts.filter (fun t => t.source = n) = []
    · have hout : outflows_per_state ts states cur n = 0 := by
        rw [outflows_filter_eq ts states cur n hn hpos, hE]
        rfl
      have hv : 0 ≤ cur n + inflows_per_state ts states cur n
          - outflows_per_state ts states cur n := by
        rw [hout]; omega
      rw [max_eq_right hv]
      simp only [sub_self, Int.cast_zero]
      exact hblen
    · obtain ⟨t0, ht0⟩ := List.exists_mem_of_ne_nil _ hE
      obtain ⟨ht0ts, ht0src⟩ := List.mem_filter.mp ht0
      have ht0n : t0.source = n := of_decide_eq_true ht0src
      have hsump : ((ts.filter (fun u => u.source = n)).map
          (fun u => u.probability)).sum = 1 := by
        have h := hsum t0 ht0ts
        rw [ht0n] at h
        exact h
      have houtle : ((outflows_per_state ts states cur n : ℤ) : ℚ)
          ≤ (cur n : ℚ)
            + ((ts.filter (fun t => t.source = n)).length : ℚ) * (1/2) := by
        rw [outflows_filter_eq ts states cur n hn hpos, lsum_cast]
        have hle := List.sum_le_sum
          (l := ts.filter (fun t => t.source = n))
          (f := fun t =>
            ((pythonRound ((cur n : ℚ) * t.probability) : ℤ) : ℚ))
          (g := fun t => (cur n : ℚ) * t.probability + 1/2)
          (fun t _ => pythonRound_le _)
        refine le_trans hle ?_
        rw [lsum_map_add, List.sum_map_mul_left, lsum_map_const, hsump,
          mul_one]
      rcases le_or_lt 0 (cur n + inflows_per_state ts states cur n
          - outflows_per_state ts states cur n) with hv | hv
      · rw [max_eq_right hv]
        simp only [sub_self, Int.cast_zero]
        exact hblen
      · rw [max_eq_left hv.le]
        have hinq : (0 : ℚ) ≤ (inflows_per_state ts states cur n : ℤ) := by
          exact_mod_cast hin
        push_cast
        push_cast at houtle
        linarith
  · rw [if_neg hpos]
    have hcn0 : cur n = 0 := le_antisymm (not_lt.mp hpos) hcn
    have hout : outflows_per_state ts states cur n = 0 :=
      outflows_zero_of_not_pos ts states cur n hpos
    have hv : 0 ≤ cur n + inflows_per_state ts states cur n
        - outflows_per_state ts states cur n := by
      rw [hcn0, hout]; omega
    rw [max_eq_right hv]
    simp

theorem bounds_sum (ts : List Transition) (states : List String)
    (cur : String → ℤ) (hnd : states.Nodup)
    (hsrc : ∀ t ∈ ts, t.source ∈ states) :
    (states.map (fun n => if 0 < cur n
        then ((ts.filter (fun t => t.source = n)).length : ℚ) * (1/2)
        else 0)).sum
      = ((ts.filter (fun t => 0 < cur t.source)).length : ℚ) * (1/2) := by
  have hstep1 : ∀ n ∈ states,
      (if 0 < cur n
        then ((ts.filter (fun t => t.source = n)).length : ℚ) * (1/2)
        else 0)
      = (ts.map (fun t =>
          if t.source = n ∧ 0 < cur n then (1/2 : ℚ) else 0)).sum := by
    intro n _
    by_cases hpos : 0 < cur n
    · rw [if_pos hpos, ← lsum_if_const ts (fun t => t.source = n) (1/2)]
      apply congrArg
      apply List.map_congr_left
      intro t _
      by_cases hsn : t.source = n
      · rw [if_pos (by simpa using hsn), if_pos ⟨hsn, hpos⟩]
      · rw [if_neg (by simpa using hsn), if_neg (fun hc => hsn hc.1)]
    · rw [if_neg hpos]
      have h1 : (ts.map (fun t =>
          if t.source = n ∧ 0 < cur n then (1/2 : ℚ) else 0))
          = ts.map (fun _ => (0 : ℚ)) :=
        List.map_congr_left (fun t _ => if_neg (fun hc => hpos hc.2))
      rw [h1, lsum_map_zero]
  rw [List.map_congr_left hstep1, lsum_comm]
  have hstep2 : ∀ t ∈ ts,
      (states.map (fun n =>
        if t.source = n ∧ 0 < cur n then (1/2 : ℚ) else 0)).sum
      = (if 0 < cur t.source then (1/2 : ℚ) else 0) := by
    intro t ht
    by_cases hc : 0 < cur t.source
    · have h1 : (states.map (fun n =>
          if t.source = n ∧ 0 < cur n then (1/2 : ℚ) else 0)).sum
          = (states.map (fun n =>
              if t.source = n then (1/2 : ℚ) else 0)).sum := by
        apply congrArg
        apply List.map_congr_left
        intro n _
        by_cases hsn : t.source = n
        · rw [if_pos ⟨hsn, by rw [← hsn]; exact hc⟩, if_pos hsn]
        · rw [if_neg (fun hcond => hsn hcond.1), if_neg hsn]
      rw [h1, lsum_if_mem states hnd (t.source) (1/2 : ℚ),
        if_pos (hsrc t ht), if_pos hc]
    · have h1 : (states.map (fun n =>
          if t.source = n ∧ 0 < cur n then (1/2 : ℚ) else 0))
          = states.map (fun _ => (0 : ℚ)) :=
        List.map_congr_left (fun n _ =>
          if_neg (fun hcond => hc (by rw [hcond.1]; exact hcond.2)))
      rw [h1, lsum_map_zero, if_neg hc]
  rw [List.map_congr_left hstep2]
  rw [show (ts.map (fun t => if 0 < cur t.source then (1/2 : ℚ) else 0))
      = ts.map (fun t =>
          if (decide (0 < cur t.source)) = true then (1/2 : ℚ) else 0)
    from List.map_congr_left (fun t _ => by simp)]
  exact lsum_if_const ts (fun t => decide (0 < cur t.source)) (1/2)

/-! ### Claim C3 -/

/-- Transitions `A → B` and `A → C`, each with probability `1/2`;
`A`'s outgoing probabilities sum exactly to `1`. -/
def c3ts : List Transition := [⟨"A", "B", 1/2⟩, ⟨"A", "C", 1/2⟩]

/-- Snapshot holding `A = 7` and `0` elsewhere. -/
def c3cur : String → ℤ := fun s => if s = "A" then 7 else 0

/-- C3, counterexample: with both of `A`'s outgoing probabilities
summing exactly to `1` and `A = 7` the only populated source, one step
takes the total from `7` to `8` — a change of `1`, which exceeds the
claimed bound `0.5 × 1` for one distinct source with outflow. -/
theorem c3_counterexample :
    totalPop ["A", "B", "C"] c3cur = 7 ∧
    totalPop ["A", "B", "C"] (stepApp c3ts ["A", "B", "C"] c3cur) = 8 ∧
    (c3ts.map (fun t => t.source)).dedup = ["A"] ∧
    ((c3ts.map (fun t => t.source)).dedup.filter
      (fun n => 0 < c3cur n)).length = 1 ∧
    ((c3ts.filter (fun t => t.source = "A")).map
      (fun t => t.probability)).sum = 1 ∧
    ¬ (|(8 : ℚ) - 7| ≤ (1/2) * 1) := by
  refine ⟨by decide, ?_, by decide, by decide, ?_, by norm_num⟩
  · norm_num [totalPop, stepApp, c3ts, c3cur, inflows_per_state,
      outflows_per_state, num_moving, pythonRound, Rat.floor_def]
    decide
  · norm_num [c3ts, List.filter_cons]

/-- C3, amended: when every source's outgoing probabilities sum exactly
to `1`, the change of total population in one Simulate-page step is
nonnegative and at most `0.5` per **transition** out of a positively
populated source (not `0.5` per distinct such source, which the
two-edge example above already exceeds). -/
theorem c3_total_change_bound (ts : List Transition)
    (states : List String) (cur : String → ℤ)
    (hnd : states.Nodup)
    (hsrc : ∀ t ∈ ts, t.source ∈ states)
    (htgt : ∀ t ∈ ts, t.target ∈ states)
    (hp : ∀ t ∈ ts, 0 ≤ t.probability)
    (hcur : ∀ n ∈ states, 0 ≤ cur n)
    (hsum : ∀ t ∈ ts, ((ts.filter (fun u => u.source = t.source)).map
      (fun u => u.probability)).sum = 1) :
    0 ≤ totalPop states (stepApp ts states cur) - totalPop states cur ∧
    ((totalPop states (stepApp ts states cur)
        - totalPop states cur : ℤ) : ℚ)
      ≤ ((ts.filter (fun t => 0 < cur t.source)).length : ℚ) * (1/2) := by
  have hstep : totalPop states (stepApp ts states cur)
      = (states.map (fun n =>
          max 0 (cur n + inflows_per_state ts states cur n
            - outflows_per_state ts states cur n))).sum := by
    unfold totalPop
    apply congrArg
    apply List.map_congr_left
    intro n hn
    simp [stepApp, hn]
  have hcons : (states.map
        (fun n => inflows_per_state ts states cur n)).sum
      = (states.map (fun n => outflows_per_state ts states cur n)).sum := by
    rw [inflows_total ts states cur hnd htgt,
      outflows_total ts states cur hnd hsrc]
  have hdecomp : (states.map (fun n =>
      max 0 (cur n + inflows_per_state ts states cur n
        - outflows_per_state ts states cur n))).sum
      = (states.map (fun n =>
          max 0 (cur n + inflows_per_state ts states cur n
            - outflows_per_state ts states cur n)
          - (cur n + inflows_per_state ts states cur n
            - outflows_per_state ts states cur n))).sum
        + (states.map (fun n =>
            cur n + inflows_per_state ts states cur n
              - outflows_per_state ts states cur n)).sum := by
    rw [← lsum_map_add]
    apply congrArg
    apply List.map_congr_left
    intro n _
    omega
  have hV : (states.map (fun n =>
      cur n + inflows_per_state ts states cur n
        - outflows_per_state ts states cur n)).sum
      = (states.map cur).sum
        + (states.map (fun n => inflows_per_state ts states cur n)).sum
        - (states.map (fun n => outflows_per_state ts states cur n)).sum := by
    rw [lsum_map_sub states
      (fun n => cur n + inflows_per_state ts states cur n)
      (fun n => outflows_per_state ts states cur n), lsum_map_add]
  have hdelta : totalPop states (stepApp ts states cur)
      - totalPop states cur
      = (states.map (fun n =>
          max 0 (cur n + inflows_per_state ts states cur n
            - outflows_per_state ts states cur n)
          - (cur n + inflows_per_state ts states cur n
            - outflows_per_state ts states cur n))).sum := by
    rw [hstep, hdecomp, hV]
    unfold totalPop
    linarith [hcons]
  constructor
  · rw [hdelta]
    apply List.sum_nonneg
    intro x hx
    rcases List.mem_map.mp hx with ⟨n, _, rfl⟩
    exact sub_nonneg.mpr (le_max_right 0 _)
  · rw [hdelta, lsum_cast]
    refine le_trans (List.sum_le_sum (fun n hn =>
      clip_excess_bound ts states cur n hn hp (hcur n hn) hsum)) ?_
    exact le_of_eq (bounds_sum ts states cur hnd hsrc)

/-- Witness for C3's amended theorem at the two-edge example: the change
`8 - 7 = 1` respects the bound `2 × 0.5 = 1`. -/
theorem c3_witness :
    (∀ t ∈ c3ts, ((c3ts.filter (fun u => u.source = t.source)).map
      (fun u => u.probability)).sum = 1) ∧
    (0 ≤ totalPop ["A", "B", "C"] (stepApp c3ts ["A", "B", "C"] c3cur)
        - totalPop ["A", "B", "C"] c3cur ∧
      ((totalPop ["A", "B", "C"] (stepApp c3ts ["A", "B", "C"] c3cur)
          - totalPop ["A", "B", "C"] c3cur : ℤ) : ℚ)
        ≤ ((c3ts.filter (fun t => 0 < c3cur t.source)).length : ℚ)
            * (1/2)) :=
  ⟨by norm_num [c3ts, List.filter_cons],
   c3_total_change_bound c3ts ["A", "B", "C"] c3cur
     (by decide) (by decide) (by decide)
     (by norm_num [c3ts]) (by decide)
     (by norm_num [c3ts, List.filter_cons])⟩

end SimpactHealth
